import Mathlib

/-!
Verification development for the Parallel-Web-Crawler repository.

The Python sources under `src/` are shallowly embedded as executable Lean
definitions.  Python strings are modelled as `List Char` (ASCII fragment:
all string data handled by the crawler's pure helpers in the claims below is
ASCII; `lower`, `strip` and the `\s` class are modelled on their ASCII
behaviour, which coincides with CPython's on these inputs).  Functions that
catch exceptions internally return `Option`/`Except` values.  Wall-clock
fields (timestamps, response times), logging and the MPI transport are
elided; external effects (HTTP fetch, BeautifulSoup parsing, robots.txt
reads) are supplied through explicit environment records.
-/

/-! ## Python string primitives (`str` methods used by `src/src/utils.py`,
`src/src/config.py` and `src/src/crawler_core.py`) -/

/-- The ASCII whitespace characters of Python's `str.strip()` / regex `\s`:
space, tab, newline, carriage return, vertical tab, form feed. -/
def pyWsChars : List Char := [' ', '\t', '\n', '\r', '\x0b', '\x0c']

/-- Is `c` (ASCII) whitespace for Python's purposes? -/
def isPyWs (c : Char) : Bool := pyWsChars.contains c

/-- `str.lower()` on an ASCII character. -/
def pyLowerChar (c : Char) : Char :=
  if 'A' ≤ c ∧ c ≤ 'Z' then Char.ofNat (c.toNat + 32) else c

/-- `str.lower()` (ASCII). -/
def pyLower (l : List Char) : List Char := l.map pyLowerChar

/-- `str.strip()` (ASCII whitespace): drop whitespace from both ends. -/
def pyStrip (l : List Char) : List Char :=
  ((l.dropWhile isPyWs).reverse.dropWhile isPyWs).reverse

/-- `str.rstrip(c)`: drop every trailing occurrence of `c`. -/
def pyRstrip (l : List Char) (c : Char) : List Char :=
  (l.reverse.dropWhile (fun x => x = c)).reverse

/-- `str.endswith(suffix)`. -/
def pyEndswith (l suffix : List Char) : Bool :=
  suffix.reverse.isPrefixOf l.reverse

/-- Python's `sub in s` substring test. -/
def pyContainsSub : List Char → List Char → Bool
  | [], sub => sub.isEmpty
  | c :: rest, sub => sub.isPrefixOf (c :: rest) || pyContainsSub rest sub

/-- Split `l` at the first occurrence of `c`: `some (before, after)` when `c`
occurs, `none` otherwise (covers `str.partition` / `str.split(c, 1)` /
`find`-based splitting in `urllib.parse`). -/
def splitOnFirst (c : Char) : List Char → Option (List Char × List Char)
  | [] => none
  | x :: rest =>
    if x = c then some ([], rest)
    else match splitOnFirst c rest with
      | some (a, b) => some (x :: a, b)
      | none => none

/-- Split `l` at its last `'/'`: `some (before, after)` with `after` free of
`'/'` (covers `str.rfind('/')` and `os.path.basename`). -/
def splitAtLastSlash : List Char → Option (List Char × List Char)
  | [] => none
  | c :: rest =>
    match splitAtLastSlash rest with
    | some (a, b) => some (c :: a, b)
    | none => if c = '/' then some ([], rest) else none

/-- `str.replace(old, new)` for nonempty `old`: replace all non-overlapping
occurrences left to right.  The fuel argument (instantiated with the input
length, which bounds the number of steps) keeps the recursion structural. -/
def pyReplaceFuel : Nat → List Char → List Char → List Char → List Char
  | 0, l, _, _ => l
  | _ + 1, [], _, _ => []
  | fuel + 1, c :: rest, old, new =>
    if old.isPrefixOf (c :: rest) ∧ old ≠ [] then
      new ++ pyReplaceFuel fuel ((c :: rest).drop old.length) old new
    else
      c :: pyReplaceFuel fuel rest old new

/-- `str.replace(old, new)`. -/
def pyReplace (l old new : List Char) : List Char :=
  pyReplaceFuel l.length l old new

/-- `str.split()` with no argument: split on whitespace runs, no empties. -/
def pySplitWsAux : List Char → List Char → List (List Char)
  | acc, [] => if acc.isEmpty then [] else [acc.reverse]
  | acc, c :: rest =>
    if isPyWs c then
      if acc.isEmpty then pySplitWsAux [] rest
      else acc.reverse :: pySplitWsAux [] rest
    else pySplitWsAux (c :: acc) rest

/-- `str.split()` with no argument. -/
def pySplitWs (l : List Char) : List (List Char) := pySplitWsAux [] l

mutual
/-- Inside `re.sub(r"\s+", " ", ·)`: currently consuming a whitespace run
(the single replacement `' '` has already been emitted). -/
def skipWsRun : List Char → List Char
  | [] => []
  | c :: rest => if isPyWs c then skipWsRun rest else c :: collapseWs rest

/-- `re.sub(r"\s+", " ", ·)` (ASCII): each maximal whitespace run becomes a
single space. -/
def collapseWs : List Char → List Char
  | [] => []
  | c :: rest => if isPyWs c then ' ' :: skipWsRun rest else c :: collapseWs rest
end

/-! ## `urllib.parse` model (CPython `urlsplit` / `urlparse` /
`urlunsplit` / `urlunparse`, restricted to `allow_fragments=True`,
ASCII input, and pre-3.11 bracket handling: only a mismatched `[`/`]`
pair in the netloc raises `ValueError`). -/

/-- Characters allowed in a scheme after the initial letter. -/
def isSchemeChar (c : Char) : Bool :=
  (('a' ≤ c ∧ c ≤ 'z') ∨ ('A' ≤ c ∧ c ≤ 'Z') ∨ ('0' ≤ c ∧ c ≤ '9')
    ∨ c = '+' ∨ c = '-' ∨ c = '.')

/-- Is `c` an ASCII letter (`c.isascii() and c.isalpha()`)? -/
def isAsciiAlpha (c : Char) : Bool := ('a' ≤ c ∧ c ≤ 'z') ∨ ('A' ≤ c ∧ c ≤ 'Z')

/-- Scan for `':'` preceded only by scheme characters (`urlsplit`'s
`url.find(':')` check).  Returns `some (scheme_without_first_char, rest)`. -/
def schemeScan : List Char → Option (List Char × List Char)
  | [] => none
  | c :: rest =>
    if c = ':' then some ([], rest)
    else if isSchemeChar c then
      match schemeScan rest with
      | some (a, b) => some (c :: a, b)
      | none => none
    else none

/-- `urlsplit` scheme detection: the first char must be an ASCII letter and
every char before the first `':'` a scheme char; the scheme is lowercased. -/
def splitScheme (l : List Char) : Option (List Char) × List Char :=
  match l with
  | [] => (none, l)
  | c :: rest =>
    if isAsciiAlpha c then
      match schemeScan rest with
      | some (a, b) => (some (pyLower (c :: a)), b)
      | none => (none, l)
    else (none, l)

/-- `_splitnetloc`: the netloc extends to the first `'/'`, `'?'` or `'#'`. -/
def notNetlocDelim (c : Char) : Bool := c ≠ '/' ∧ c ≠ '?' ∧ c ≠ '#'

/-- The result record of `urllib.parse.urlparse` (named tuple fields). -/
structure PyUrl where
  scheme : List Char
  netloc : List Char
  path : List Char
  params : List Char
  query : List Char
  fragment : List Char
deriving DecidableEq, Repr

/-- Schemes of CPython's `uses_params` list. -/
def usesParams : List (List Char) :=
  ["".data, "ftp".data, "hdl".data, "prospero".data, "http".data,
   "imap".data, "https".data, "shttp".data, "rtsp".data, "rtspu".data,
   "sip".data, "sips".data, "mms".data, "sftp".data, "tel".data]

/-- CPython `_splitparams`: split `';params'` off the last path segment. -/
def splitParamsPy (path : List Char) : List Char × List Char :=
  match splitAtLastSlash path with
  | some (a, b) =>
    match splitOnFirst ';' b with
    | some (x, y) => (a ++ '/' :: x, y)
    | none => (path, [])
  | none =>
    match splitOnFirst ';' path with
    | some (x, y) => (x, y)
    | none => (path, [])

/-- `urllib.parse.urlsplit` then the `urlparse` params split.  `none` models
the `ValueError` raised on a netloc with mismatched square brackets.
The unsafe bytes `'\t'`, `'\r'`, `'\n'` are removed up front. -/
def pyUrlparse (l : List Char) : Option PyUrl :=
  let l := l.filter (fun c => ¬ (c = '\t' ∨ c = '\r' ∨ c = '\n'))
  let (schemeOpt, rest) := splitScheme l
  let scheme := schemeOpt.getD []
  let (netloc, rest) :=
    if rest.take 2 = "//".data then
      ((rest.drop 2).takeWhile notNetlocDelim, (rest.drop 2).dropWhile notNetlocDelim)
    else ([], rest)
  if (netloc.contains '[' ∧ ¬ netloc.contains ']')
      ∨ (netloc.contains ']' ∧ ¬ netloc.contains '[') then none
  else
    let (rest, fragment) :=
      match splitOnFirst '#' rest with
      | some (a, b) => (a, b)
      | none => (rest, [])
    let (pathPart, query) :=
      match splitOnFirst '?' rest with
      | some (a, b) => (a, b)
      | none => (rest, [])
    let (path, params) :=
      if pyContainsSub pathPart [';'] ∧ scheme ∈ usesParams then
        splitParamsPy pathPart
      else (pathPart, [])
    some ⟨scheme, netloc, path, params, query, fragment⟩

/-- `urllib.parse.urlunsplit`. -/
def pyUrlunsplit (scheme netloc url query fragment : List Char) : List Char :=
  let url :=
    if netloc ≠ [] ∨ (url ≠ [] ∧ url.take 2 = "//".data) then
      let url := if url ≠ [] ∧ url.take 1 ≠ "/".data then '/' :: url else url
      "//".data ++ netloc ++ url
    else url
  let url := if scheme ≠ [] then scheme ++ ':' :: url else url
  let url := if query ≠ [] then url ++ '?' :: query else url
  if fragment ≠ [] then url ++ '#' :: fragment else url

/-- `urllib.parse.urlunparse`. -/
def pyUrlunparse (scheme netloc url params query fragment : List Char) : List Char :=
  let url := if params ≠ [] then url ++ ';' :: params else url
  pyUrlunsplit scheme netloc url query fragment

/-! ## `src/src/utils.py` -/

/-- `utils.normalize_url(url)` with the default `base_url=None` (the
`urljoin` branch is skipped).  Returns `none` where the Python function
returns `None` (non-http(s) scheme, empty netloc, or a parse exception). -/
def normalize_url (url : String) : Option String :=
  match pyUrlparse (pyStrip url.data) with
  | none => none
  | some parsed =>
    if ¬ (parsed.scheme = "http".data ∨ parsed.scheme = "https".data) then none
    else if parsed.netloc = [] then none
    else
      let scheme := pyLower parsed.scheme
      let netloc := pyLower parsed.netloc
      let netloc :=
        if pyContainsSub netloc ":80".data ∧ scheme = "http".data then
          pyReplace netloc ":80".data []
        else if pyContainsSub netloc ":443".data ∧ scheme = "https".data then
          pyReplace netloc ":443".data []
        else netloc
      let path := parsed.path
      let path :=
        if pyEndswith path "/".data ∧ path.length > 1 then pyRstrip path '/'
        else if path = [] then "/".data
        else path
      some (String.mk (pyUrlunparse scheme netloc path [] parsed.query []))

/-- `utils.get_domain_from_url`: the lowercased netloc, `none` on a parse
exception. -/
def get_domain_from_url (url : String) : Option String :=
  match pyUrlparse url.data with
  | none => none
  | some parsed => some (String.mk (pyLower parsed.netloc))

/-- `utils.clean_text(text, max_length)`: strip, collapse whitespace runs to
single spaces, and truncate to `max_length` characters with `"..."` appended
when longer. -/
def clean_text (text : String) (max_length : Nat) : String :=
  if text.data = [] then ""
  else
    let cleaned := collapseWs (pyStrip text.data)
    if cleaned.length > max_length then String.mk (cleaned.take max_length ++ "...".data)
    else String.mk cleaned

/-! ## `src/src/config.py` -/

/-- `config.CrawlerConfig` (the fields the claims exercise; the float-valued
timing fields, file paths and robots cache TTL are elided as they do not
influence any pure function modelled here).  The extension and protocol sets
are carried as lists. -/
structure CrawlerConfig where
  max_depth : Nat
  max_urls_per_domain : Nat
  user_agent : String
  respect_robots_txt : Bool
  allowed_extensions : List String
  blocked_extensions : List String
  allowed_protocols : List String
deriving Repr

/-- The defaults installed by `CrawlerConfig.__post_init__`. -/
def defaultConfig : CrawlerConfig :=
  { max_depth := 2
    max_urls_per_domain := 50
    user_agent := "Mozilla/5.0 (compatible; ParallelCrawler/1.0)"
    respect_robots_txt := true
    allowed_extensions :=
      [".html", ".htm", ".php", ".asp", ".aspx", ".jsp", ".py", ".rb", ".pl", ""]
    blocked_extensions :=
      [".pdf", ".doc", ".docx", ".xls", ".xlsx", ".ppt", ".pptx",
       ".zip", ".rar", ".7z", ".tar", ".gz",
       ".jpg", ".jpeg", ".png", ".gif", ".bmp", ".svg", ".ico",
       ".mp3", ".mp4", ".wav", ".avi", ".mov", ".wmv",
       ".exe", ".msi", ".deb", ".rpm", ".dmg"]
    allowed_protocols := ["http", "https"] }

/-- `os.path.basename` (POSIX): the part after the last `'/'`. -/
def osBasename (path : List Char) : List Char :=
  match splitAtLastSlash path with
  | some (_, b) => b
  | none => path

/-- `CrawlerConfig.is_url_allowed(url)`: parse `url.lower()`, require the
scheme in `allowed_protocols`, reject blocked extensions, and apply the
allowed-extension/basename rule.  A parse exception yields `False`. -/
def CrawlerConfig.is_url_allowed (cfg : CrawlerConfig) (url : String) : Bool :=
  match pyUrlparse (pyLower url.data) with
  | none => false
  | some parsed =>
    if ¬ cfg.allowed_protocols.any (fun p => p.data = parsed.scheme) then false
    else
      let path := pyLower parsed.path
      if cfg.blocked_extensions.any (fun e => pyEndswith path e.data) then false
      else if ¬ cfg.allowed_extensions.isEmpty then
        if ¬ cfg.allowed_extensions.any (fun e => pyEndswith path e.data) then
          if pyContainsSub (osBasename path) ".".data then false else true
        else true
      else true

/-! ## Robots handling (`CrawlerCore._is_robots_allowed`).
`urllib.robotparser.RobotFileParser` is external; a fetched-and-parsed
robots.txt policy is abstracted as its `can_fetch` predicate. -/

/-- An entry of the per-worker robots cache: the verdict function
`can_fetch(useragent, url)` of a parsed `robots.txt`. -/
structure RobotsPolicy where
  canFetch : String → String → Bool

/-- The worker's robots cache `self.robots_cache`: origin string to
`RobotFileParser | None` (the `None` sentinel means "allow all"). -/
def RobotsCache := List (String × Option RobotsPolicy)

/-- `CrawlerCore._is_robots_allowed(url)`.  `readResult` supplies the outcome
of the `rp.read()` network call on a cache miss (`none` = it raised).
Returns the verdict together with the updated cache.  The catch-all
`except Exception: return True` handlers are modelled by the `true` results
on parse failure and on the `user_agent.split()[0]` `IndexError` when the
configured user agent has no non-whitespace token. -/
def is_robots_allowed_m (user_agent : String) (cache : RobotsCache)
    (readResult : Option RobotsPolicy) (url : String) : Bool × RobotsCache :=
  match pyUrlparse url.data with
  | none => (true, cache)
  | some parsed =>
    let domain := String.mk (parsed.scheme ++ "://".data ++ parsed.netloc)
    match cache.lookup domain with
    | none =>
      match readResult with
      | none => (true, (domain, none) :: cache)
      | some rp =>
        let cache := (domain, some rp) :: cache
        match pySplitWs user_agent.data with
        | [] => (true, cache)
        | tok :: _ => (rp.canFetch (String.mk tok) url, cache)
    | some none => (true, cache)
    | some (some rp) =>
      match pySplitWs user_agent.data with
      | [] => (true, cache)
      | tok :: _ => (rp.canFetch (String.mk tok) url, cache)

/-! ## `src/src/crawler_core.py` -/

/-- The result of `BeautifulSoup` parsing on an HTML body:
`title_text = some t` models `soup.find('title')` succeeding with
`get_text() = t`; `links_extract = some ls` models
`extract_links_from_html(response.text, url)` returning `ls`, `none` an
exception inside the inner link-extraction `try` (caught: links := ∅). -/
structure PageParse where
  title_text : Option String
  links_extract : Option (List String)

/-- A completed HTTP response (2xx after `raise_for_status`):
`content_type` is `response.headers.get('content-type')`; `parse` is
`Except.error msg` when HTML processing raised (→ the outer
`except Exception` / `parse_error` path). -/
structure HttpResponse where
  content_length : Nat
  content_type : Option String
  parse : Except String PageParse

/-- Outcome of `self.session.get` + `raise_for_status`:
`requests.exceptions.RequestException` (incl. timeouts, redirect limits and
`HTTPError` from non-2xx statuses), any other exception, or a response. -/
inductive FetchOutcome where
  | reqError (msg : String)
  | excError (msg : String)
  | ok (resp : HttpResponse)

/-- The external world seen by one `crawl_url` call. -/
structure CrawlEnv where
  robots_cache : RobotsCache
  robots_read : Option RobotsPolicy
  fetch : FetchOutcome

/-- The worker's result dictionary (`result = { ... }` in `crawl_url`).
`timestamp`, `response_time` (wall clock) are elided. -/
structure CrawlResult where
  url : String
  title : String
  content_length : Nat
  status : String
  depth : Nat
  domain : Option String
  error_message : Option String
  links : List String
deriving Repr

/-- `CrawlerCore.crawl_url(url, depth)`. -/
def crawl_url (cfg : CrawlerConfig) (env : CrawlEnv) (url : String) (depth : Nat) :
    CrawlResult :=
  let domain := get_domain_from_url url
  let base : CrawlResult :=
    { url := url, title := "", content_length := 0, status := "error",
      depth := depth, domain := domain, error_message := none, links := [] }
  if ¬ cfg.is_url_allowed url then
    { base with error_message := some "URL blocked by configuration", status := "blocked" }
  else if cfg.respect_robots_txt
      ∧ ¬ (is_robots_allowed_m cfg.user_agent env.robots_cache env.robots_read url).1 then
    { base with error_message := some "Blocked by robots.txt", status := "robots_blocked" }
  else
    match env.fetch with
    | .reqError m =>
      { base with error_message := some ("Request error: " ++ m), status := "request_error" }
    | .excError m =>
      { base with error_message := some ("Parsing error: " ++ m), status := "parse_error" }
    | .ok resp =>
      let withLen := { base with content_length := resp.content_length }
      if pyContainsSub (pyLower (resp.content_type.getD "").data) "text/html".data then
        match resp.parse with
        | .error m =>
          { withLen with error_message := some ("Parsing error: " ++ m),
                         status := "parse_error" }
        | .ok page =>
          let title :=
            match page.title_text with
            | some t => clean_text t 200
            | none => "No Title Found"
          let links :=
            if depth < cfg.max_depth then
              match page.links_extract with
              | some ls => ls.filter cfg.is_url_allowed
              | none => []
            else []
          { withLen with title := title, links := links, status := "success" }
      else
        { withLen with
            title := "Non-HTML content (" ++ resp.content_type.getD "unknown" ++ ")",
            status := "success" }

/-! ## `src/src/database_manager.py` — the `discovered_links` table.
Schema (`_init_database`): `id INTEGER PRIMARY KEY AUTOINCREMENT`,
`source_url TEXT NOT NULL`, `target_url TEXT NOT NULL`, `depth INTEGER NOT
NULL`, `discovered_at` (elided: wall clock), and a (non-unique) foreign key
on `source_url` that SQLite does not enforce by default.  The only
uniqueness constraint is the `id` primary key; AUTOINCREMENT assigns
max-so-far + 1 (no deletes occur on this table). -/

/-- A row of `discovered_links`. -/
structure LinkRow where
  id : Nat
  source_url : String
  target_url : String
  depth : Nat
deriving DecidableEq, Repr

/-- Largest `id` present (0 for the empty table). -/
def linkMaxId (tbl : List LinkRow) : Nat :=
  tbl.foldr (fun r m => max r.id m) 0

/-- Does inserting a row with this `id` violate the table's only uniqueness
constraint (the primary key)? -/
def linkIdTaken (tbl : List LinkRow) (i : Nat) : Bool :=
  tbl.any (fun r => r.id = i)

/-- One `INSERT OR IGNORE INTO discovered_links` statement: the row is
dropped exactly when it would violate a uniqueness constraint, i.e. only on
a primary-key collision (the schema has no UNIQUE over
`(source_url, target_url)`). -/
def insertLinkRow (tbl : List LinkRow) (s t : String) (d : Nat) : List LinkRow :=
  let i := linkMaxId tbl + 1
  if linkIdTaken tbl i then tbl else tbl ++ [⟨i, s, t, d⟩]

/-- `DatabaseManager.insert_discovered_links(source_url, target_urls, depth)`:
one `INSERT OR IGNORE` per target, committed together. -/
def insert_discovered_links (tbl : List LinkRow) (source_url : String)
    (target_urls : List String) (depth : Nat) : List LinkRow :=
  target_urls.foldl (fun acc t => insertLinkRow acc source_url t depth) tbl

/-- Number of rows for a given `(source_url, target_url)` pair. -/
def pairRowCount (tbl : List LinkRow) (s t : String) : Nat :=
  (tbl.filter (fun r => r.source_url = s ∧ r.target_url = t)).length

/-! ## `src/src/mpi_coordinator.py` — the master's frontier state machine.
The master-side fields `visited_urls`, `work_queue`, `domain_counts` are
modelled directly; `active_workers`, `total_processed`, timestamps, the
database writes and all logging are elided (they do not feed back into the
frontier).  Two ghost histories are added for specification purposes only:
`enqueueLog` records every `WorkItem` ever appended to `work_queue` and
`dispatchLog` every `WorkItem` ever sent to a worker. -/

/-- `mpi_coordinator.WorkItem` (the wall-clock `timestamp` field elided). -/
structure WorkItem where
  url : String
  depth : Nat
deriving DecidableEq, Repr

/-- The master's mutable frontier state. -/
structure MasterState where
  visited : List String
  queue : List WorkItem
  domainCounts : String → Nat
  enqueueLog : List WorkItem
  dispatchLog : List WorkItem

/-- `defaultdict(int)` bump: `self.domain_counts[d] += 1`. -/
def bumpCount (f : String → Nat) (d : String) : String → Nat :=
  fun x => if x = d then f x + 1 else f x

/-- One iteration of the seed loop in `run_master` (lines 77–80): skip a URL
already in `visited_urls`, otherwise append `WorkItem(url, 0)` and mark
visited. -/
def seedStep (s : MasterState) (url : String) : MasterState :=
  if url ∈ s.visited then s
  else
    { s with queue := s.queue ++ [⟨url, 0⟩],
             visited := url :: s.visited,
             enqueueLog := s.enqueueLog ++ [⟨url, 0⟩] }

/-- The master state after the seed loop, starting from empty structures. -/
def initMaster (seeds : List String) : MasterState :=
  seeds.foldl seedStep
    { visited := [], queue := [], domainCounts := fun _ => 0,
      enqueueLog := [], dispatchLog := [] }

/-- One iteration of the loop in `_filter_and_add_links`: skip when already
visited, when the (truthy) domain has reached `max_urls_per_domain`, or when
`is_url_allowed` rejects; otherwise enqueue at the given depth and mark
visited.  The accumulator also carries `new_links`. -/
def admitLink (cfg : CrawlerConfig) (depth : Nat)
    (acc : MasterState × List String) (link : String) : MasterState × List String :=
  let st := acc.1
  if link ∈ st.visited then acc
  else if (match get_domain_from_url link with
           | some d => decide (d ≠ "" ∧ cfg.max_urls_per_domain ≤ st.domainCounts d)
           | none => false) = true then acc
  else if ¬ cfg.is_url_allowed link then acc
  else
    ({ st with queue := st.queue ++ [⟨link, depth⟩],
               visited := link :: st.visited,
               enqueueLog := st.enqueueLog ++ [⟨link, depth⟩] },
     acc.2 ++ [link])

/-- `MPICoordinator._filter_and_add_links(links, depth)`: returns the updated
master state and the set of newly added URLs. -/
def filterAndAddLinks (cfg : CrawlerConfig) (s : MasterState)
    (links : List String) (depth : Nat) : MasterState × List String :=
  links.foldl (admitLink cfg depth) (s, [])

/-- `MPICoordinator._process_result(result)`: on a successful result with a
nonempty link set and `depth < max_depth`, admit the links at `depth + 1`
(the database writes are elided); then, when the result's domain is truthy,
increment `domain_counts[domain]`.  Note the increment happens here, per
received result — not at admission time. -/
def processResult (cfg : CrawlerConfig) (s : MasterState) (r : CrawlResult) :
    MasterState :=
  let s1 :=
    if r.status = "success" ∧ r.links ≠ [] ∧ r.depth < cfg.max_depth then
      (filterAndAddLinks cfg s r.links (r.depth + 1)).1
    else s
  match r.domain with
  | some d => if d = "" then s1 else { s1 with domainCounts := bumpCount s1.domainCounts d }
  | none => s1

/-- The observable master-side transitions of `run_master`'s dispatch code
and main loop: popping the front work item and sending it to a worker
(initial distribution, line 89, and the per-result send, line 108), and
processing a received worker result (line 104).  The received
`CrawlResult` is left arbitrary: any worker reply is covered. -/
inductive CoordStep (cfg : CrawlerConfig) : MasterState → MasterState → Prop
  | dispatch (s : MasterState) (j : WorkItem) (rest : List WorkItem)
      (h : s.queue = j :: rest) :
      CoordStep cfg s
        { s with queue := rest, dispatchLog := s.dispatchLog ++ [j] }
  | recvResult (s : MasterState) (r : CrawlResult) :
      CoordStep cfg s (processResult cfg s r)

/-- A master state reachable in a run of `run_master` seeded with `seeds`. -/
def Reachable (cfg : CrawlerConfig) (seeds : List String) (s : MasterState) : Prop :=
  Relation.ReflTransGen (CoordStep cfg) (initMaster seeds) s

/-! ## Specification-side definitions over the embedding -/

/-- The URLs of a list of work items. -/
def urlsOf (l : List WorkItem) : List String := l.map WorkItem.url

/-- The admission gate of `_filter_and_add_links` on the domain quota, read
off the state the call started in: the link's domain is either untruthy
(`None` or empty) or strictly below `max_urls_per_domain`. -/
def quotaOpen (cfg : CrawlerConfig) (s : MasterState) (u : String) : Bool :=
  match get_domain_from_url u with
  | some d => decide (d = "" ∨ s.domainCounts d < cfg.max_urls_per_domain)
  | none => true

/-- Run invariant of the master state: every enqueued URL is visited, the
enqueue history has pairwise-distinct URLs, the queue and dispatch history
jointly never contain a URL more often than it was enqueued, and every work
item ever created carries depth ≤ `max_depth`. -/
def CoordInv (cfg : CrawlerConfig) (s : MasterState) : Prop :=
  (∀ j ∈ s.enqueueLog, j.url ∈ s.visited)
  ∧ (urlsOf s.enqueueLog).Nodup
  ∧ (∀ u : String,
      (urlsOf s.queue).count u + (urlsOf s.dispatchLog).count u
        ≤ (urlsOf s.enqueueLog).count u)
  ∧ (∀ j ∈ s.queue, j.depth ≤ cfg.max_depth)
  ∧ (∀ j ∈ s.dispatchLog, j.depth ≤ cfg.max_depth)
  ∧ (∀ j ∈ s.enqueueLog, j.depth ≤ cfg.max_depth)

/-! ## Concrete runs and inputs used by individual claims -/

/-- Configuration with a domain quota of 1 (all other options default). -/
def c1cfg : CrawlerConfig := { defaultConfig with max_urls_per_domain := 1 }

/-- Worker result for the seed `http://a.test/`: success at depth 0 with two
same-domain links. -/
def c1r0 : CrawlResult :=
  { url := "http://a.test/", title := "A", content_length := 10,
    status := "success", depth := 0, domain := some "a.test",
    error_message := none, links := ["http://a.test/x", "http://a.test/y"] }

/-- Worker result for `http://a.test/x` at depth 1 (no links). -/
def c1r1 : CrawlResult :=
  { url := "http://a.test/x", title := "", content_length := 0,
    status := "request_error", depth := 1, domain := some "a.test",
    error_message := some "timeout", links := [] }

/-- Master state after seeding with the single URL `http://a.test/`. -/
def c1s0 : MasterState := initMaster ["http://a.test/"]

/-- After the initial dispatch of the seed to worker 1. -/
def c1s1 : MasterState :=
  { c1s0 with queue := [], dispatchLog := c1s0.dispatchLog ++ [⟨"http://a.test/", 0⟩] }

/-- After receiving and processing the seed's result (admits x and y,
then bumps `domain_counts["a.test"]` to 1). -/
def c1s2 : MasterState := processResult c1cfg c1s1 c1r0

/-- After dispatching `http://a.test/x`. -/
def c1s3 : MasterState :=
  { c1s2 with queue := [⟨"http://a.test/y", 1⟩],
              dispatchLog := c1s2.dispatchLog ++ [⟨"http://a.test/x", 1⟩] }

/-- After receiving x's result: `domain_counts["a.test"]` reaches 2 > 1. -/
def c1s4 : MasterState := processResult c1cfg c1s3 c1r1

/-- A one-dispatch run seeded with `http://w.test/` (used to instantiate the
depth-bound theorem). -/
def c3s : MasterState :=
  { initMaster ["http://w.test/"] with
      queue := [],
      dispatchLog := (initMaster ["http://w.test/"]).dispatchLog ++ [⟨"http://w.test/", 0⟩] }

/-- A worker result arriving at exactly `max_depth` (no links admissible). -/
def c3r : CrawlResult :=
  { url := "http://w.test/a", title := "t", content_length := 5,
    status := "success", depth := 2, domain := some "w.test",
    error_message := none, links := ["http://w.test/b"] }

/-- An allowed-scheme, allowed-extension URL of length 2114 > 2000. -/
def c6LongUrl : String := "http://x.test/" ++ String.mk (List.replicate 2100 'a')

/-- A 201-character `<title>` text. -/
def c7Title : String := String.mk (List.replicate 201 'x')

/-- Environment: robots allow (empty cache, failed read ⇒ allow-all), HTML
response whose title text has 201 characters. -/
def c7Env : CrawlEnv :=
  { robots_cache := [], robots_read := none,
    fetch := .ok { content_length := 500, content_type := some "text/html",
                   parse := .ok { title_text := some c7Title, links_extract := some [] } } }

/-- Environment for the title-specification witness: a short title. -/
def c7EnvW : CrawlEnv :=
  { robots_cache := [], robots_read := none,
    fetch := .ok { content_length := 7, content_type := some "text/html",
                   parse := .ok { title_text := some "Hello World",
                                  links_extract := some [] } } }

/-- Two identical `insert_discovered_links` calls on an initially empty
`discovered_links` table. -/
def c9Table : List LinkRow :=
  insert_discovered_links
    (insert_discovered_links [] "http://a.test/" ["http://a.test/x"] 1)
    "http://a.test/" ["http://a.test/x"] 1

/-- A robots policy that forbids everything for every user agent. -/
def c10DenyAll : RobotsPolicy := { canFetch := fun _ _ => false }

/-- A robots cache holding a deny-all policy for the origin
`http://b.test`. -/
def c10Cache : RobotsCache := [("http://b.test", some c10DenyAll)]

/-- No two adjacent whitespace characters (what "whitespace-collapsed"
guarantees about adjacency in a title string). -/
def noAdjacentWs (l : List Char) : Prop :=
  List.Chain' (fun a b => ¬ (isPyWs a = true ∧ isPyWs b = true)) l

/-- Executable check for `noAdjacentWs`. -/
def noAdjWsB : List Char → Bool
  | a :: b :: rest => (!(isPyWs a && isPyWs b)) && noAdjWsB (b :: rest)
  | _ => true

/-! ## Helper lemmas -/


theorem schemeScan_append (l1 l2 : List Char) :
    ∀ a b, schemeScan l1 = some (a, b) → schemeScan (l1 ++ l2) = some (a, b ++ l2) := by
  induction l1 with
  | nil => intro a b h; simp [schemeScan] at h
  | cons c rest ih =>
    intro a b h
    rw [List.cons_append]
    unfold schemeScan at h ⊢
    split at h
    · next hc =>
      rw [if_pos hc]
      cases h
      rfl
    · next hc =>
      rw [if_neg hc]
      split at h
      · next hs =>
        rw [if_pos hs]
        cases hr : schemeScan rest with
        | none => rw [hr] at h; simp at h
        | some p =>
          rw [hr] at h
          obtain ⟨a0, b0⟩ := p
          rw [ih a0 b0 hr]
          simp at h
          simp [← h.1, ← h.2]
      · next hs => rw [if_neg hs]; exact absurd h (by simp)

theorem takeWhile_append_stops (p : Char → Bool) (l1 l2 : List Char)
    (h : l1.dropWhile p ≠ []) :
    (l1 ++ l2).takeWhile p = l1.takeWhile p
      ∧ (l1 ++ l2).dropWhile p = l1.dropWhile p ++ l2 := by
  induction l1 with
  | nil => simp [List.dropWhile] at h
  | cons c rest ih =>
    by_cases hc : p c
    · rw [List.dropWhile_cons_of_pos hc] at h
      obtain ⟨h1, h2⟩ := ih h
      constructor
      · rw [List.cons_append, List.takeWhile_cons_of_pos hc,
            List.takeWhile_cons_of_pos hc, h1]
      · rw [List.cons_append, List.dropWhile_cons_of_pos hc,
            List.dropWhile_cons_of_pos hc, h2]
    · constructor
      · rw [List.cons_append, List.takeWhile_cons_of_neg hc,
            List.takeWhile_cons_of_neg hc]
      · rw [List.cons_append, List.dropWhile_cons_of_neg hc,
            List.dropWhile_cons_of_neg hc, List.cons_append]

theorem splitOnFirst_eq_none (k : Char) (l : List Char) (h : ∀ c ∈ l, ¬ c = k) :
    splitOnFirst k l = none := by
  induction l with
  | nil => rfl
  | cons c rest ih =>
    unfold splitOnFirst
    rw [if_neg (h c (by simp)), ih (fun c hc => h c (by simp [hc]))]

theorem pyContainsSub_single_eq_false (k : Char) (l : List Char) (h : ∀ c ∈ l, ¬ c = k) :
    pyContainsSub l [k] = false := by
  induction l with
  | nil => rfl
  | cons c rest ih =>
    unfold pyContainsSub
    rw [ih (fun c hc => h c (by simp [hc]))]
    simp [List.isPrefixOf]
    intro hk
    exact absurd hk.symm (h c (by simp))

theorem pyEndswith_nil_true (l : List Char) : pyEndswith l [] = true := by
  simp [pyEndswith, List.isPrefixOf]

theorem pyEndswith_false_of_getLast_ne (l suf : List Char) (a : Char)
    (hl : l.getLast? = some a) (hs : ∀ c, suf.getLast? = some c → ¬ c = a)
    (hne : suf ≠ []) : pyEndswith l suf = false := by
  have hlr : l.reverse.head? = some a := by rw [List.head?_reverse]; exact hl
  have hsr : suf.reverse ≠ [] := by simpa using hne
  cases hsufr : suf.reverse with
  | nil => exact absurd hsufr hsr
  | cons c cs =>
    have hcs : suf.getLast? = some c := by
      rw [← List.head?_reverse, hsufr]; rfl
    cases hlr' : l.reverse with
    | nil => rw [hlr'] at hlr; simp at hlr
    | cons d ds =>
      rw [hlr'] at hlr
      have hda : d = a := by simpa using hlr
      unfold pyEndswith
      rw [hsufr, hlr']
      simp [List.isPrefixOf, hda]
      intro hca
      exact absurd hca (hs c hcs)

theorem replicate_a_mem (n : Nat) (c : Char) (h : c ∈ List.replicate n 'a') : c = 'a' :=
  List.eq_of_mem_replicate h

theorem pyUrlparse_long (n : Nat) :
    pyUrlparse ("http://x.test/".data ++ List.replicate n 'a') =
      some ⟨"http".data, "x.test".data, '/' :: List.replicate n 'a', [], [], []⟩ := by
  have hfil : ("http://x.test/".data ++ List.replicate n 'a').filter
      (fun c => ¬ (c = '\t' ∨ c = '\r' ∨ c = '\n')) =
      "http://x.test/".data ++ List.replicate n 'a' := by
    refine List.filter_eq_self.mpr ?_
    intro c hc
    rcases List.mem_append.mp hc with h | h
    · fin_cases h <;> decide
    · rw [List.eq_of_mem_replicate h]; decide
  have hd : "http://x.test/".data ++ List.replicate n 'a'
      = 'h' :: ("ttp://x.test/".data ++ List.replicate n 'a') := rfl
  have hscan : schemeScan ("ttp://x.test/".data ++ List.replicate n 'a') =
      some ("ttp".data, "//x.test/".data ++ List.replicate n 'a') :=
    schemeScan_append "ttp://x.test/".data (List.replicate n 'a') "ttp".data
      "//x.test/".data (by decide)
  have hsplit : splitScheme ("http://x.test/".data ++ List.replicate n 'a')
      = (some "http".data, "//x.test/".data ++ List.replicate n 'a') := by
    rw [hd]
    simp only [splitScheme]
    rw [if_pos (by decide : isAsciiAlpha 'h' = true), hscan]
    rfl
  have htake : ("//x.test/".data ++ List.replicate n 'a').take 2 = "//".data := by
    rw [List.take_append_of_le_length (by decide)]
    rfl
  have hdrop : ("//x.test/".data ++ List.replicate n 'a').drop 2
      = "x.test/".data ++ List.replicate n 'a' := by
    rw [List.drop_append_of_le_length (by decide)]
    rfl
  have htw := takeWhile_append_stops notNetlocDelim "x.test/".data
      (List.replicate n 'a') (by decide)
  have htw1 : ("x.test/".data ++ List.replicate n 'a').takeWhile notNetlocDelim
      = "x.test".data := by rw [htw.1]; rfl
  have htw2 : ("x.test/".data ++ List.replicate n 'a').dropWhile notNetlocDelim
      = '/' :: List.replicate n 'a' := by rw [htw.2]; rfl
  have hmem : ∀ c ∈ '/' :: List.replicate n 'a', c = '/' ∨ c = 'a' := by
    intro c hc
    rcases List.mem_cons.mp hc with h | h
    · exact Or.inl h
    · exact Or.inr (List.eq_of_mem_replicate h)
  have hhash : splitOnFirst '#' ('/' :: List.replicate n 'a') = none := by
    refine splitOnFirst_eq_none _ _ ?_
    intro c hc
    rcases hmem c hc with h | h <;> simp [h]
  have hq : splitOnFirst '?' ('/' :: List.replicate n 'a') = none := by
    refine splitOnFirst_eq_none _ _ ?_
    intro c hc
    rcases hmem c hc with h | h <;> simp [h]
  have hsemi : pyContainsSub ('/' :: List.replicate n 'a') [';'] = false := by
    refine pyContainsSub_single_eq_false _ _ ?_
    intro c hc
    rcases hmem c hc with h | h <;> simp [h]
  unfold pyUrlparse
  dsimp only
  rw [hfil, hsplit]
  dsimp only
  rw [if_pos htake, hdrop, htw1, htw2]
  dsimp only
  rw [if_neg (by decide)]
  rw [hhash]
  dsimp only
  rw [hq]
  dsimp only
  rw [hsemi]
  rfl

theorem pyLower_c6 : pyLower c6LongUrl.data = "http://x.test/".data ++ List.replicate 2100 'a' := by
  have h : c6LongUrl.data = "http://x.test/".data ++ List.replicate 2100 'a' := by
    show ("http://x.test/" ++ String.mk (List.replicate 2100 'a')).data = _
    rw [String.data_append]
  rw [h]
  unfold pyLower
  rw [List.map_append, List.map_replicate]
  rfl

theorem path_c6_getLast : ('/' :: List.replicate 2100 'a').getLast? = some 'a' := by
  have h : '/' :: List.replicate 2100 'a' = ('/' :: List.replicate 2099 'a') ++ ['a'] := by
    rw [List.replicate_succ' 2099 'a']
    rfl
  rw [h, List.getLast?_concat]

theorem pyLower_path_c6 : pyLower ('/' :: List.replicate 2100 'a') = '/' :: List.replicate 2100 'a' := by
  unfold pyLower
  rw [List.map_cons, List.map_replicate]
  rfl

theorem blocked_c6 :
    defaultConfig.blocked_extensions.any
      (fun e => pyEndswith ('/' :: List.replicate 2100 'a') e.data) = false := by
  rw [List.any_eq_false]
  intro e he
  have hprops : ¬ e.data = [] ∧ e.data.getLast? ≠ some 'a' := by
    fin_cases he <;> exact ⟨by decide, by decide⟩
  rw [pyEndswith_false_of_getLast_ne _ _ 'a' path_c6_getLast ?_ hprops.1]
  · simp
  intro c hc hca
  rw [hca] at hc
  exact hprops.2 hc

theorem is_url_allowed_c6 : defaultConfig.is_url_allowed c6LongUrl = true := by
  unfold CrawlerConfig.is_url_allowed
  rw [pyLower_c6, pyUrlparse_long 2100]
  show (if ¬(defaultConfig.allowed_protocols.any fun q => q.data = "http".data) = true
      then false else _) = true
  rw [if_neg (not_not_intro (by decide :
    defaultConfig.allowed_protocols.any (fun q => q.data = "http".data) = true))]
  rw [pyLower_path_c6]
  dsimp only
  rw [blocked_c6]
  have hallow : (defaultConfig.allowed_extensions.any
      fun e => pyEndswith ('/' :: List.replicate 2100 'a') e.data) = true := by
    rw [List.any_eq_true]
    exact ⟨"", by decide, pyEndswith_nil_true _⟩
  rw [hallow]
  simp


/-! ## Claim C6 -/

/-- C6 (counterexample): `is_url_allowed` imposes no URL-length cap: a
2114-character URL (> the 2000 the spec claims) with allowed scheme and
extension is accepted, refuting the claim that every URL longer than the
configured maximum is rejected. -/
theorem c6_length_claim_false : 2000 < c6LongUrl.length ∧ defaultConfig.is_url_allowed c6LongUrl = true := by
  constructor
  · show 2000 < ("http://x.test/" ++ String.mk (List.replicate 2100 'a')).length
    rw [String.length_append]
    have h1 : "http://x.test/".length = 14 := rfl
    have h2 : (String.mk (List.replicate 2100 'a')).length = (List.replicate 2100 'a').length := rfl
    rw [h1, h2, List.length_replicate]
    norm_num
  · exact is_url_allowed_c6

/-- C6 (amended): `CrawlerConfig.is_url_allowed` consults only the scheme
and the path extension rules: whenever the lowercased URL parses, its scheme
is in `allowed_protocols`, no blocked extension matches, and `""` is among
the allowed extensions (as in the default configuration), the URL is
accepted — no URL-length bound and no blocked-domain check exists. -/
theorem is_url_allowed_of_scheme_ext (cfg : CrawlerConfig) (url : String) (p : PyUrl)
    (hp : pyUrlparse (pyLower url.data) = some p)
    (hs : cfg.allowed_protocols.any (fun q => q.data = p.scheme) = true)
    (hb : cfg.blocked_extensions.any (fun e => pyEndswith (pyLower p.path) e.data) = false)
    (he : "" ∈ cfg.allowed_extensions) :
    cfg.is_url_allowed url = true := by
  unfold CrawlerConfig.is_url_allowed
  rw [hp]
  dsimp only
  rw [if_neg (not_not_intro hs), hb]
  simp only [Bool.false_eq_true, if_false]
  have hne : ¬ cfg.allowed_extensions.isEmpty = true := by
    intro hemp
    rw [List.isEmpty_iff] at hemp
    rw [hemp] at he
    exact absurd he (List.not_mem_nil "")
  rw [if_pos hne]
  have hallow : (cfg.allowed_extensions.any fun e => pyEndswith (pyLower p.path) e.data) = true := by
    rw [List.any_eq_true]
    exact ⟨"", he, pyEndswith_nil_true _⟩
  rw [hallow]
  simp

/-- Witness: the amended C6 theorem applied to a concrete allowed URL. -/
theorem is_url_allowed_of_scheme_ext_w :
    defaultConfig.is_url_allowed "http://a.test/x" = true :=
  is_url_allowed_of_scheme_ext defaultConfig "http://a.test/x"
    ⟨"http".data, "a.test".data, "/x".data, [], [], []⟩
    (by decide) (by decide) (by decide) (by decide)

/-! ## Claim C4 -/

/-- C4: `normalize_url` is not idempotent.  On `"http://a.com//"` the
`rstrip('/')` removes both trailing slashes, the empty path is not restored
to `"/"` (the `elif` is skipped), and the output `"http://a.com"`
re-normalizes to the different string `"http://a.com/"`. -/
theorem normalize_url_not_idempotent :
    normalize_url "http://a.com//" = some "http://a.com"
    ∧ (normalize_url "http://a.com//").bind normalize_url = some "http://a.com/"
    ∧ (normalize_url "http://a.com//").bind normalize_url
        ≠ normalize_url "http://a.com//" := by
  refine ⟨by decide, by decide, by decide⟩

/-! ## Claim C5 -/

/-- C5: `normalize_url` mangles non-default ports instead of preserving
them: `netloc.replace(':80', '')` removes the substring `":80"` from
`"example.com:8080"`, producing host `"example.com80"`, and
`replace(':443', '')` turns `":4430"` into `"0"`. -/
theorem normalize_url_mangles_nondefault_ports :
    normalize_url "http://example.com:8080/" = some "http://example.com80/"
    ∧ normalize_url "https://example.com:4430/x" = some "https://example.com0/x"
    ∧ normalize_url "http://example.com:8080/" ≠ some "http://example.com:8080/" := by
  refine ⟨by decide, by decide, by decide⟩

/-! ## Claim C9 -/

/-- Every id in the table is at most `linkMaxId`. -/
theorem linkMaxId_ge (tbl : List LinkRow) : ∀ r ∈ tbl, r.id ≤ linkMaxId tbl := by
  induction tbl with
  | nil => intro r hr; exact absurd hr (List.not_mem_nil r)
  | cons x rest ih =>
    intro r hr
    unfold linkMaxId
    rw [List.foldr_cons]
    rcases List.mem_cons.mp hr with h | h
    · rw [h]; exact Nat.le_max_left _ _
    · exact Nat.le_trans (ih r h) (Nat.le_max_right _ _)

/-- A fresh AUTOINCREMENT id never collides, so `INSERT OR IGNORE` always
appends. -/
theorem insertLinkRow_appends (tbl : List LinkRow) (s t : String) (d : Nat) :
    insertLinkRow tbl s t d = tbl ++ [⟨linkMaxId tbl + 1, s, t, d⟩] := by
  unfold insertLinkRow
  rw [if_neg ?_]
  intro htaken
  rw [linkIdTaken, List.any_eq_true] at htaken
  obtain ⟨r, hr, hid⟩ := htaken
  have := linkMaxId_ge tbl r hr
  simp at hid
  omega

/-- Appending one row changes a pair's row count by its match indicator. -/
theorem pairRowCount_append (tbl : List LinkRow) (row : LinkRow) (s t : String) :
    pairRowCount (tbl ++ [row]) s t
      = pairRowCount tbl s t
        + (if row.source_url = s ∧ row.target_url = t then 1 else 0) := by
  unfold pairRowCount
  rw [List.filter_append, List.length_append]
  congr 1
  by_cases h : row.source_url = s ∧ row.target_url = t
  · rw [if_pos h]
    simp [h]
  · rw [if_neg h]
    simp only [List.filter, decide_eq_true_eq]
    rw [decide_eq_false h]
    rfl

/-- C9 (amended): `insert_discovered_links` never deduplicates: the
`discovered_links` schema has no UNIQUE constraint over
`(source_url, target_url)` — only the `id` primary key — so each call
appends one row per target and the row count of a pair grows by the number
of times the target occurs, without bound. -/
theorem insert_discovered_links_accumulates (ts : List String) :
    ∀ (tbl : List LinkRow) (src t : String) (dep : Nat),
      pairRowCount (insert_discovered_links tbl src ts dep) src t
        = pairRowCount tbl src t + ts.count t := by
  induction ts with
  | nil => intro tbl src t dep; simp [insert_discovered_links, List.count_nil]
  | cons x rest ih =>
    intro tbl src t dep
    unfold insert_discovered_links
    rw [List.foldl_cons]
    have hstep := insertLinkRow_appends tbl src x dep
    rw [hstep]
    have hrec := ih (tbl ++ [⟨linkMaxId tbl + 1, src, x, dep⟩]) src t dep
    unfold insert_discovered_links at hrec
    rw [hrec, pairRowCount_append, List.count_cons]
    by_cases hx : x = t
    · rw [if_pos (And.intro rfl hx), if_pos (by simpa using hx)]
      omega
    · rw [if_neg (fun hc => hx hc.2), if_neg (by simpa using hx)]
      omega

/-- C9 (counterexample): two identical `insert_discovered_links` calls leave
two rows for the pair `("http://a.test/", "http://a.test/x")` — the claimed
"at most one row per pair" is false. -/
theorem discovered_links_duplicate_rows :
    pairRowCount c9Table "http://a.test/" "http://a.test/x" = 2
    ∧ ¬ pairRowCount c9Table "http://a.test/" "http://a.test/x" ≤ 1 := by
  refine ⟨by decide, by decide⟩

/-! ## Claim C10 -/

/-- A fully-whitespace string splits into no tokens. -/
theorem pySplitWs_of_all_ws (l : List Char) (h : ∀ c ∈ l, isPyWs c = true) :
    pySplitWs l = [] := by
  unfold pySplitWs
  induction l with
  | nil => rfl
  | cons c rest ih =>
    unfold pySplitWsAux
    rw [h c (by simp)]
    simp only [List.isEmpty_nil, if_pos rfl]
    exact ih (fun c hc => h c (by simp [hc]))

/-- C10: when the configured `user_agent` has no non-whitespace characters,
`_is_robots_allowed` returns `True` for every URL and every cache state —
including a cached policy that forbids everything — because
`user_agent.split()[0]` raises `IndexError` and the catch-all handler
answers "allowed". -/
theorem robots_allowed_when_ua_blank (user_agent : String) (cache : RobotsCache)
    (readResult : Option RobotsPolicy) (url : String)
    (h : ∀ c ∈ user_agent.data, isPyWs c = true) :
    (is_robots_allowed_m user_agent cache readResult url).1 = true := by
  have hsplit : pySplitWs user_agent.data = [] := pySplitWs_of_all_ws _ h
  unfold is_robots_allowed_m
  cases hparse : pyUrlparse url.data with
  | none => rfl
  | some parsed =>
    dsimp only
    cases List.lookup (String.mk (parsed.scheme ++ "://".data ++ parsed.netloc)) cache with
    | none =>
      cases readResult with
      | none => rfl
      | some rp => rw [hsplit]
    | some entry =>
      cases entry with
      | none => rfl
      | some rp => rw [hsplit]

/-- Witness: with the blank user agent `"   "`, a cached deny-all policy for
`http://b.test`, and the URL `http://b.test/private`, the check still
answers `true`. -/
theorem robots_allowed_when_ua_blank_w :
    (is_robots_allowed_m "   " c10Cache none "http://b.test/private").1 = true :=
  robots_allowed_when_ua_blank "   " c10Cache none "http://b.test/private" (by decide)

/-! ## Claim C8 -/

/-- C8: every `crawl_url` result carries one of the five documented statuses
(`success`, `blocked`, `robots_blocked`, `request_error`, `parse_error`);
the `'error'` placeholder written into the initial result dictionary is
overwritten on every path before returning. -/
theorem crawl_status_taxonomy (cfg : CrawlerConfig) (env : CrawlEnv) (url : String)
    (depth : Nat) :
    (crawl_url cfg env url depth).status
        ∈ ["success", "blocked", "robots_blocked", "request_error", "parse_error"]
      ∧ (crawl_url cfg env url depth).status ≠ "error" := by
  have h : (crawl_url cfg env url depth).status
      ∈ ["success", "blocked", "robots_blocked", "request_error", "parse_error"] := by
    unfold crawl_url
    dsimp only
    split
    · simp
    · split
      · simp
      · cases env.fetch with
        | reqError m => simp
        | excError m => simp
        | ok resp =>
          dsimp only
          split
          · cases resp.parse with
            | error m => simp
            | ok page => simp
          · simp
  refine ⟨h, ?_⟩
  intro he
  rw [he] at h
  simp at h

/-! ## Claim C7 -/

theorem noAdjWsB_eq_true_iff (l : List Char) : noAdjWsB l = true ↔ noAdjacentWs l := by
  induction l with
  | nil => simp [noAdjWsB, noAdjacentWs]
  | cons a rest ih =>
    cases rest with
    | nil => simp [noAdjWsB, noAdjacentWs]
    | cons b rest2 =>
      rw [noAdjacentWs, List.chain'_cons]
      rw [noAdjWsB]
      rw [noAdjacentWs] at ih
      simp only [Bool.and_eq_true, Bool.not_eq_true', Bool.and_eq_false_iff, ih]
      constructor
      · rintro ⟨h1, h2⟩
        refine ⟨?_, h2⟩
        rintro ⟨ha, hb⟩
        rcases h1 with h | h
        · rw [ha] at h; exact absurd h (by decide)
        · rw [hb] at h; exact absurd h (by decide)
      · rintro ⟨h1, h2⟩
        refine ⟨?_, h2⟩
        by_cases ha : isPyWs a
        · by_cases hb : isPyWs b
          · exact absurd ⟨ha, hb⟩ h1
          · exact Or.inr (Bool.eq_false_iff.mpr hb)
        · exact Or.inl (Bool.eq_false_iff.mpr ha)
theorem skipWsRun_head_not_ws (l : List Char) :
    ∀ c, (skipWsRun l).head? = some c → isPyWs c = false := by
  induction l with
  | nil => intro c hc; simp [skipWsRun] at hc
  | cons x rest ih =>
    intro c hc
    unfold skipWsRun at hc
    by_cases hx : isPyWs x
    · rw [if_pos hx] at hc
      exact ih c hc
    · rw [if_neg hx] at hc
      simp at hc
      rw [← hc]
      exact Bool.eq_false_iff.mpr hx

theorem collapseWs_chain (l : List Char) :
    noAdjacentWs (collapseWs l) ∧ noAdjacentWs (skipWsRun l) := by
  induction l with
  | nil => exact ⟨List.chain'_nil, List.chain'_nil⟩
  | cons x rest ih =>
    constructor
    · unfold collapseWs
      by_cases hx : isPyWs x
      · rw [if_pos hx]
        rw [noAdjacentWs, List.chain'_cons']
        refine ⟨?_, ih.2⟩
        intro y hy
        rw [skipWsRun_head_not_ws rest y hy]
        simp
      · rw [if_neg hx]
        rw [noAdjacentWs, List.chain'_cons']
        refine ⟨?_, ih.1⟩
        intro y hy
        rw [Bool.eq_false_iff.mpr hx]
        simp
    · unfold skipWsRun
      by_cases hx : isPyWs x
      · rw [if_pos hx]
        exact ih.2
      · rw [if_neg hx]
        rw [noAdjacentWs, List.chain'_cons']
        refine ⟨?_, ih.1⟩
        intro y hy
        rw [Bool.eq_false_iff.mpr hx]
        simp

theorem clean_text_length (t : String) (maxl : Nat) :
    (clean_text t maxl).length ≤ maxl + 3 := by
  unfold clean_text
  split
  · simp [String.length]
  · dsimp only
    split
    · next hlong =>
      show (List.take maxl (collapseWs (pyStrip t.data)) ++ "...".data).length ≤ maxl + 3
      rw [List.length_append, List.length_take]
      have : "...".data.length = 3 := rfl
      omega
    · next hshort =>
      show (collapseWs (pyStrip t.data)).length ≤ maxl + 3
      omega

theorem dots_noAdjacentWs : noAdjacentWs "...".data := by
  rw [show "...".data = ['.', '.', '.'] from rfl, noAdjacentWs]
  refine List.chain'_cons.mpr ⟨?_, List.chain'_cons.mpr ⟨?_, List.chain'_singleton _⟩⟩ <;>
    exact fun h => (by decide : ¬ isPyWs '.' = true) h.1

theorem clean_text_noAdjacentWs (t : String) (maxl : Nat) :
    noAdjacentWs (clean_text t maxl).data := by
  unfold clean_text
  split
  · exact List.chain'_nil
  · dsimp only
    split
    · show noAdjacentWs (List.take maxl (collapseWs (pyStrip t.data)) ++ "...".data)
      rw [noAdjacentWs, List.chain'_append]
      refine ⟨(collapseWs_chain (pyStrip t.data)).1.take maxl, dots_noAdjacentWs, ?_⟩
      intro x hx y hy
      have hy' : '.' = y := by
        simp only [List.head?] at hy
        simpa using hy
      rw [← hy']
      exact fun h => (by decide : ¬ isPyWs '.' = true) h.2
    · exact (collapseWs_chain (pyStrip t.data)).1

/-- C7 (amended): on a successfully crawled HTML page, the title is
`clean_text(title_text, 200)` — whitespace-collapsed, and when the collapsed
text exceeds 200 characters it is truncated to 200 with `"..."` appended, so
its length is bounded by 203 (not 200); a page with no `<title>` tag gets
the literal `"No Title Found"`. -/
theorem crawl_title_spec (cfg : CrawlerConfig) (env : CrawlEnv) (url : String) (depth : Nat)
    (resp : HttpResponse) (page : PageParse)
    (hf : env.fetch = .ok resp)
    (hhtml : pyContainsSub (pyLower (resp.content_type.getD "").data) "text/html".data = true)
    (hp : resp.parse = .ok page)
    (hs : (crawl_url cfg env url depth).status = "success") :
    (crawl_url cfg env url depth).title
        = (match page.title_text with
           | some t => clean_text t 200
           | none => "No Title Found")
    ∧ (crawl_url cfg env url depth).title.length ≤ 203
    ∧ noAdjacentWs (crawl_url cfg env url depth).title.data := by
  unfold crawl_url at hs ⊢
  by_cases hallow : cfg.is_url_allowed url
  · rw [if_neg (by simp [hallow])] at hs ⊢
    by_cases hrob : cfg.respect_robots_txt
        ∧ ¬ (is_robots_allowed_m cfg.user_agent env.robots_cache env.robots_read url).1
    · rw [if_pos hrob] at hs
      simp at hs
    · rw [if_neg hrob] at hs ⊢
      rw [hf] at hs ⊢
      dsimp only at hs ⊢
      rw [if_pos hhtml] at hs ⊢
      rw [hp] at hs ⊢
      dsimp only at hs ⊢
      cases page.title_text with
      | some t =>
        refine ⟨rfl, clean_text_length t 200, clean_text_noAdjacentWs t 200⟩
      | none =>
        refine ⟨rfl, by decide, ?_⟩
        show noAdjacentWs "No Title Found".data
        rw [← noAdjWsB_eq_true_iff]
        decide
  · rw [if_pos (by simp [hallow])] at hs
    simp at hs

/-- Witness: the C7 title specification applied to a concrete crawl with a
short title. -/
theorem crawl_title_spec_w :
    (crawl_url defaultConfig c7EnvW "http://a.test/" 0).title = clean_text "Hello World" 200
    ∧ (crawl_url defaultConfig c7EnvW "http://a.test/" 0).title.length ≤ 203 := by
  have h := crawl_title_spec defaultConfig c7EnvW "http://a.test/" 0
    { content_length := 7, content_type := some "text/html",
      parse := .ok { title_text := some "Hello World", links_extract := some [] } }
    { title_text := some "Hello World", links_extract := some [] }
    rfl (by decide) rfl (by decide)
  exact ⟨h.1, h.2.1⟩

set_option maxRecDepth 4000 in
/-- C7 (counterexample): a 201-character `<title>` produces a 203-character
stored title (200 kept plus `"..."`), refuting the claimed 200-character
bound. -/
theorem crawl_title_exceeds_200 :
    (crawl_url defaultConfig c7Env "http://t.test/" 0).status = "success"
    ∧ ¬ (crawl_url defaultConfig c7Env "http://t.test/" 0).title.length ≤ 200 := by
  refine ⟨by decide, by decide⟩

/-! ## Coordinator invariants (claims C1, C2, C3) -/

theorem inv_enqueue (cfg : CrawlerConfig) (s : MasterState) (u : String) (d : Nat)
    (hinv : CoordInv cfg s) (hu : u ∉ s.visited) (hd : d ≤ cfg.max_depth) :
    CoordInv cfg
      { s with queue := s.queue ++ [⟨u, d⟩],
               visited := u :: s.visited,
               enqueueLog := s.enqueueLog ++ [⟨u, d⟩] } := by
  obtain ⟨h1, h2, h3, h4, h5, h6⟩ := hinv
  have hnotin : u ∉ urlsOf s.enqueueLog := by
    intro hmem
    rw [urlsOf, List.mem_map] at hmem
    obtain ⟨j, hj, hju⟩ := hmem
    exact hu (hju ▸ h1 j hj)
  refine ⟨?_, ?_, ?_, ?_, ?_, ?_⟩
  · intro j hj
    rcases List.mem_append.mp hj with h | h
    · exact List.mem_cons_of_mem u (h1 j h)
    · rw [List.mem_singleton.mp h]
      exact List.mem_cons_self u s.visited
  · show (urlsOf (s.enqueueLog ++ [⟨u, d⟩])).Nodup
    rw [urlsOf, List.map_append]
    rw [List.nodup_append]
    refine ⟨h2, List.nodup_singleton u, ?_⟩
    intro a ha hb
    rw [List.mem_singleton.mp hb] at ha
    exact hnotin ha
  · intro v
    have := h3 v
    simp only [urlsOf, List.map_append, List.count_append] at this ⊢
    simp only [List.map_cons, List.map_nil]
    omega
  · intro j hj
    rcases List.mem_append.mp hj with h | h
    · exact h4 j h
    · rw [List.mem_singleton.mp h]; exact hd
  · exact h5
  · intro j hj
    rcases List.mem_append.mp hj with h | h
    · exact h6 j h
    · rw [List.mem_singleton.mp h]; exact hd

theorem seedStep_inv (cfg : CrawlerConfig) (s : MasterState) (u : String)
    (hinv : CoordInv cfg s) : CoordInv cfg (seedStep s u) := by
  unfold seedStep
  split
  · exact hinv
  · next hu => exact inv_enqueue cfg s u 0 hinv hu (Nat.zero_le _)

theorem admitLink_inv (cfg : CrawlerConfig) (d : Nat) (acc : MasterState × List String)
    (link : String) (hinv : CoordInv cfg acc.1) (hd : d ≤ cfg.max_depth) :
    CoordInv cfg (admitLink cfg d acc link).1 := by
  unfold admitLink
  dsimp only
  split
  · exact hinv
  · next hvis =>
    split
    · exact hinv
    · split
      · exact hinv
      · exact inv_enqueue cfg acc.1 link d hinv hvis hd

theorem foldl_admit_inv (cfg : CrawlerConfig) (d : Nat) (links : List String)
    (hd : d ≤ cfg.max_depth) :
    ∀ acc : MasterState × List String, CoordInv cfg acc.1 →
      CoordInv cfg (links.foldl (admitLink cfg d) acc).1 := by
  induction links with
  | nil => intro acc h; exact h
  | cons x rest ih =>
    intro acc h
    rw [List.foldl_cons]
    exact ih _ (admitLink_inv cfg d acc x h hd)

theorem processResult_inv (cfg : CrawlerConfig) (s : MasterState) (r : CrawlResult)
    (hinv : CoordInv cfg s) : CoordInv cfg (processResult cfg s r) := by
  unfold processResult
  have hs1 : CoordInv cfg
      (if r.status = "success" ∧ r.links ≠ [] ∧ r.depth < cfg.max_depth then
        (filterAndAddLinks cfg s r.links (r.depth + 1)).1
       else s) := by
    split
    · next hc => exact foldl_admit_inv cfg (r.depth + 1) r.links hc.2.2 (s, []) hinv
    · exact hinv
  cases r.domain with
  | none => exact hs1
  | some dd =>
    dsimp only
    split
    · exact hs1
    · exact hs1

theorem foldl_seed_inv (cfg : CrawlerConfig) (seeds : List String) :
    ∀ s0 : MasterState, CoordInv cfg s0 → CoordInv cfg (seeds.foldl seedStep s0) := by
  induction seeds with
  | nil => intro s0 h; exact h
  | cons x rest ih =>
    intro s0 h
    rw [List.foldl_cons]
    exact ih (seedStep s0 x) (seedStep_inv cfg s0 x h)

theorem initMaster_inv (cfg : CrawlerConfig) (seeds : List String) :
    CoordInv cfg (initMaster seeds) := by
  unfold initMaster
  refine foldl_seed_inv cfg seeds _ ?_
  refine ⟨?_, ?_, ?_, ?_, ?_, ?_⟩ <;> simp [urlsOf]

theorem coordStep_inv (cfg : CrawlerConfig) (s s' : MasterState)
    (hstep : CoordStep cfg s s') (hinv : CoordInv cfg s) : CoordInv cfg s' := by
  cases hstep with
  | dispatch j rest h =>
    obtain ⟨h1, h2, h3, h4, h5, h6⟩ := hinv
    refine ⟨h1, h2, ?_, ?_, ?_, h6⟩
    · intro v
      have hold := h3 v
      rw [h] at hold
      dsimp only
      simp only [urlsOf, List.map_append, List.map_cons, List.map_nil,
        List.count_append, List.count_cons, List.count_nil] at hold ⊢
      omega
    · intro j' hj'
      dsimp only at hj'
      exact h4 j' (h ▸ List.mem_cons_of_mem j hj')
    · intro j' hj'
      dsimp only at hj'
      rcases List.mem_append.mp hj' with hh | hh
      · exact h5 j' hh
      · rw [List.mem_singleton.mp hh]
        exact h4 j (h ▸ List.mem_cons_self j rest)
  | recvResult r => exact processResult_inv cfg s r hinv

theorem reachable_inv (cfg : CrawlerConfig) (seeds : List String) (s : MasterState)
    (h : Reachable cfg seeds s) : CoordInv cfg s := by
  induction h with
  | refl => exact initMaster_inv cfg seeds
  | tail hsteps hstep ih => exact coordStep_inv cfg _ _ hstep ih

theorem dispatched_nodup_thm (cfg : CrawlerConfig) (seeds : List String) (s : MasterState)
    (h : Reachable cfg seeds s) :
    (urlsOf s.dispatchLog).Nodup ∧ (urlsOf s.enqueueLog).Nodup := by
  obtain ⟨_, h2, h3, _, _, _⟩ := reachable_inv cfg seeds s h
  refine ⟨?_, h2⟩
  rw [List.nodup_iff_count_le_one]
  intro u
  have := h3 u
  have henq := List.nodup_iff_count_le_one.mp h2 u
  omega

theorem initMaster_enqueue_depth0 (seeds : List String) :
    ∀ j ∈ (initMaster seeds).enqueueLog, j.depth = 0 := by
  unfold initMaster
  have hgen : ∀ (ss : List String) (s0 : MasterState),
      (∀ j ∈ s0.enqueueLog, j.depth = 0) →
      ∀ j ∈ (ss.foldl seedStep s0).enqueueLog, j.depth = 0 := by
    intro ss
    induction ss with
    | nil => intro s0 h; exact h
    | cons x rest ih =>
      intro s0 h
      rw [List.foldl_cons]
      refine ih (seedStep s0 x) ?_
      unfold seedStep
      split
      · exact h
      · intro j hj
        rcases List.mem_append.mp hj with hh | hh
        · exact h j hh
        · rw [List.mem_singleton.mp hh]
  exact hgen seeds _ (by intro j hj; exact absurd hj (List.not_mem_nil j))

theorem processResult_no_admission_at_max (cfg : CrawlerConfig) (s : MasterState)
    (r : CrawlResult) (h : cfg.max_depth ≤ r.depth) :
    (processResult cfg s r).queue = s.queue
      ∧ (processResult cfg s r).enqueueLog = s.enqueueLog := by
  unfold processResult
  have hc : ¬ (r.status = "success" ∧ r.links ≠ [] ∧ r.depth < cfg.max_depth) := by
    rintro ⟨-, -, hlt⟩
    omega
  rw [if_neg hc]
  cases r.domain with
  | none => exact ⟨rfl, rfl⟩
  | some dd =>
    dsimp only
    split
    · exact ⟨rfl, rfl⟩
    · exact ⟨rfl, rfl⟩

theorem admitLink_counts (cfg : CrawlerConfig) (d : Nat) (acc : MasterState × List String)
    (link : String) : (admitLink cfg d acc link).1.domainCounts = acc.1.domainCounts := by
  unfold admitLink
  dsimp only
  split
  · rfl
  · split
    · rfl
    · split
      · rfl
      · rfl

theorem filterAndAddLinks_counts (cfg : CrawlerConfig) (links : List String) :
    ∀ (acc : MasterState × List String) (d : Nat),
      ((links.foldl (admitLink cfg d) acc).1).domainCounts = acc.1.domainCounts := by
  induction links with
  | nil => intro acc d; rfl
  | cons x rest ih =>
    intro acc d
    rw [List.foldl_cons, ih (admitLink cfg d acc x) d, admitLink_counts]

theorem admit_sound (cfg : CrawlerConfig) (s0 : MasterState) (d : Nat) (links : List String) :
    ∀ acc : MasterState × List String,
      acc.1.domainCounts = s0.domainCounts →
      (∀ u ∈ s0.visited, u ∈ acc.1.visited) →
      (∀ j ∈ acc.1.queue, j ∈ s0.queue ∨
        (j.depth = d ∧ j.url ∉ s0.visited ∧ cfg.is_url_allowed j.url = true
          ∧ quotaOpen cfg s0 j.url = true)) →
      ∀ j ∈ (links.foldl (admitLink cfg d) acc).1.queue, j ∈ s0.queue ∨
        (j.depth = d ∧ j.url ∉ s0.visited ∧ cfg.is_url_allowed j.url = true
          ∧ quotaOpen cfg s0 j.url = true) := by
  induction links with
  | nil => intro acc _ _ hq; exact hq
  | cons x rest ih =>
    intro acc hcounts hvis hq
    rw [List.foldl_cons]
    refine ih (admitLink cfg d acc x) ?_ ?_ ?_
    · rw [admitLink_counts]; exact hcounts
    · unfold admitLink
      dsimp only
      split
      · exact hvis
      · split
        · exact hvis
        · split
          · exact hvis
          · intro u hu
            exact List.mem_cons_of_mem x (hvis u hu)
    · unfold admitLink
      dsimp only
      split
      · exact hq
      · next hxvis =>
        split
        · exact hq
        · next hquota =>
          split
          · exact hq
          · next hxallow =>
            intro j hj
            dsimp only at hj
            rcases List.mem_append.mp hj with hh | hh
            · exact hq j hh
            · rw [List.mem_singleton.mp hh]
              refine Or.inr ⟨rfl, ?_, ?_, ?_⟩
              · intro hx0
                exact hxvis (hvis x hx0)
              · exact Bool.not_not_eq.mp (by simpa using hxallow)
              · unfold quotaOpen
                dsimp only
                cases hdom : get_domain_from_url x with
                | none => rfl
                | some dd =>
                  rw [hdom] at hquota
                  dsimp only at hquota
                  simp only [decide_eq_true_eq] at hquota ⊢
                  rw [hcounts] at hquota
                  by_cases hdd : dd = ""
                  · exact Or.inl hdd
                  · refine Or.inr ?_
                    by_contra hge
                    exact hquota ⟨hdd, by omega⟩

theorem filterAndAddLinks_counts_eq (cfg : CrawlerConfig) (s : MasterState)
    (links : List String) (d : Nat) :
    (filterAndAddLinks cfg s links d).1.domainCounts = s.domainCounts := by
  unfold filterAndAddLinks
  exact filterAndAddLinks_counts cfg links (s, []) d

theorem processResult_bumps (cfg : CrawlerConfig) (s : MasterState) (r : CrawlResult)
    (dd : String) (h1 : r.domain = some dd) (h2 : ¬ dd = "") :
    (processResult cfg s r).domainCounts dd = s.domainCounts dd + 1 := by
  unfold processResult
  rw [h1]
  dsimp only
  rw [if_neg h2]
  dsimp only
  have hs1 : (if r.status = "success" ∧ r.links ≠ [] ∧ r.depth < cfg.max_depth then
      (filterAndAddLinks cfg s r.links (r.depth + 1)).1 else s).domainCounts
      = s.domainCounts := by
    split
    · exact filterAndAddLinks_counts_eq cfg s r.links (r.depth + 1)
    · rfl
  unfold bumpCount
  rw [if_pos rfl, hs1]

theorem filter_admits_only_when_quota_open_aux (cfg : CrawlerConfig) (s : MasterState)
    (links : List String) (depth : Nat) (j : WorkItem)
    (h : j ∈ (filterAndAddLinks cfg s links depth).1.queue) :
    j ∈ s.queue ∨ (j.depth = depth ∧ j.url ∉ s.visited
      ∧ cfg.is_url_allowed j.url = true ∧ quotaOpen cfg s j.url = true) := by
  unfold filterAndAddLinks at h
  exact admit_sound cfg s depth links (s, []) rfl (fun u hu => hu) (fun j hj => Or.inl hj) j h

/-! ## Claim C2 -/

/-- C2: in every run each URL is enqueued at most once (the seed loop and
`_filter_and_add_links` both check `visited_urls` before appending and mark
the URL visited when they append), hence the dispatch history also never
repeats a URL. -/
theorem dispatch_dedup (cfg : CrawlerConfig) (seeds : List String) (s : MasterState)
    (h : Reachable cfg seeds s) :
    (urlsOf s.dispatchLog).Nodup ∧ (urlsOf s.enqueueLog).Nodup :=
  dispatched_nodup_thm cfg seeds s h

/-- Witness: the dedup theorem applied to the freshly seeded master state. -/
theorem dispatch_dedup_w :
    (urlsOf (initMaster ["http://a.test/"]).dispatchLog).Nodup
    ∧ (urlsOf (initMaster ["http://a.test/"]).enqueueLog).Nodup :=
  dispatch_dedup defaultConfig ["http://a.test/"] (initMaster ["http://a.test/"])
    Relation.ReflTransGen.refl

/-! ## Claim C3 -/

/-- C3: every dispatched job's depth is bounded by `max_depth` (depths are
naturals, so `0 ≤ depth` holds by construction); seeds enter at depth 0; and
a result arriving with `depth ≥ max_depth` admits nothing — queue and
enqueue history are unchanged by processing it. -/
theorem job_depth_bounded :
    (∀ (cfg : CrawlerConfig) (seeds : List String) (s : MasterState),
        Reachable cfg seeds s → ∀ j ∈ s.dispatchLog, j.depth ≤ cfg.max_depth)
    ∧ (∀ seeds : List String, ∀ j ∈ (initMaster seeds).enqueueLog, j.depth = 0)
    ∧ (∀ (cfg : CrawlerConfig) (s : MasterState) (r : CrawlResult),
        cfg.max_depth ≤ r.depth →
          (processResult cfg s r).queue = s.queue
          ∧ (processResult cfg s r).enqueueLog = s.enqueueLog) :=
  ⟨fun cfg seeds s h => (reachable_inv cfg seeds s h).2.2.2.2.1,
   initMaster_enqueue_depth0, processResult_no_admission_at_max⟩

/-- Witness: the depth-bound theorem applied to a one-dispatch run and to a
result arriving at exactly `max_depth`. -/
theorem job_depth_bounded_w :
    (⟨"http://w.test/", 0⟩ : WorkItem).depth ≤ defaultConfig.max_depth
    ∧ (⟨"http://w.test/", 0⟩ : WorkItem).depth = 0
    ∧ (processResult defaultConfig c3s c3r).queue = c3s.queue := by
  have hreach : Reachable defaultConfig ["http://w.test/"] c3s :=
    Relation.ReflTransGen.tail Relation.ReflTransGen.refl
      (CoordStep.dispatch (initMaster ["http://w.test/"]) ⟨"http://w.test/", 0⟩ []
        (by decide))
  refine ⟨job_depth_bounded.1 defaultConfig ["http://w.test/"] c3s hreach _ (by decide),
    job_depth_bounded.2.1 ["http://w.test/"] _ (by decide),
    (job_depth_bounded.2.2 defaultConfig c3s c3r (by decide)).1⟩

/-! ## Claim C1 -/

/-- C1 (amended): admission in `_filter_and_add_links` is gated on the
domain count as it stood when the call began — every admitted work item was
unvisited, allowed, and its (truthy) domain strictly below
`max_urls_per_domain` at that point — but admission itself does NOT
increment `domain_counts`; the increment happens once per processed result
in `_process_result`, so `domain_counts` may exceed the quota. -/
theorem filter_and_add_links_quota_gate :
    (∀ (cfg : CrawlerConfig) (s : MasterState) (links : List String) (depth : Nat)
        (j : WorkItem), j ∈ (filterAndAddLinks cfg s links depth).1.queue →
        j ∈ s.queue ∨ (j.depth = depth ∧ j.url ∉ s.visited
          ∧ cfg.is_url_allowed j.url = true ∧ quotaOpen cfg s j.url = true))
    ∧ (∀ (cfg : CrawlerConfig) (s : MasterState) (links : List String) (depth : Nat),
        (filterAndAddLinks cfg s links depth).1.domainCounts = s.domainCounts)
    ∧ (∀ (cfg : CrawlerConfig) (s : MasterState) (r : CrawlResult) (dd : String),
        r.domain = some dd → ¬ dd = "" →
          (processResult cfg s r).domainCounts dd = s.domainCounts dd + 1) :=
  ⟨filter_admits_only_when_quota_open_aux, filterAndAddLinks_counts_eq,
   processResult_bumps⟩

/-- Witness: the quota-gate theorem applied to one admitted link and one
processed result. -/
theorem filter_and_add_links_quota_gate_w :
    ((⟨"http://a.test/x", 1⟩ : WorkItem) ∈ (initMaster []).queue
      ∨ ((1 : Nat) = 1 ∧ "http://a.test/x" ∉ (initMaster []).visited
        ∧ defaultConfig.is_url_allowed "http://a.test/x" = true
        ∧ quotaOpen defaultConfig (initMaster []) "http://a.test/x" = true))
    ∧ (processResult defaultConfig (initMaster []) c1r1).domainCounts "a.test"
        = (initMaster []).domainCounts "a.test" + 1 :=
  ⟨filter_and_add_links_quota_gate.1 defaultConfig (initMaster [])
      ["http://a.test/x"] 1 ⟨"http://a.test/x", 1⟩ (by decide),
   filter_and_add_links_quota_gate.2.2 defaultConfig (initMaster []) c1r1 "a.test"
      rfl (by decide)⟩

/-- C1 (counterexample): with `max_urls_per_domain = 1`, a run that crawls
the seed, admits two same-domain links while `domain_counts["a.test"]` is
still 0, and then receives two results reaches an observable state with
`domain_counts["a.test"] = 2 > 1` — the claimed invariant
`domain_counts[d] ≤ max_urls_per_domain` is false, and admission does not
increment the counter. -/
theorem domain_quota_invariant_violated :
    Reachable c1cfg ["http://a.test/"] c1s4
    ∧ c1cfg.max_urls_per_domain < c1s4.domainCounts "a.test" := by
  have h1 : CoordStep c1cfg c1s0 c1s1 :=
    CoordStep.dispatch c1s0 ⟨"http://a.test/", 0⟩ [] (by decide)
  have h2 : CoordStep c1cfg c1s1 c1s2 := CoordStep.recvResult c1s1 c1r0
  have h3 : CoordStep c1cfg c1s2 c1s3 :=
    CoordStep.dispatch c1s2 ⟨"http://a.test/x", 1⟩ [⟨"http://a.test/y", 1⟩] (by decide)
  have h4 : CoordStep c1cfg c1s3 c1s4 := CoordStep.recvResult c1s3 c1r1
  exact ⟨Relation.ReflTransGen.tail (Relation.ReflTransGen.tail
    (Relation.ReflTransGen.tail (Relation.ReflTransGen.tail
      Relation.ReflTransGen.refl h1) h2) h3) h4, by decide⟩
